import Mathlib

/-!
Verification of the Selective Field Protection Engine
(`src/criptografia.py`, class `SecureDataProcessor`).

The Python source is shallowly embedded below.  Record sets (pandas
DataFrames) are modelled column-major as association lists from column
name to the list of cell values; scalar cells are strings, integers or
the missing value (pandas NaN).  The third-party cryptographic
primitives (Fernet, base64, PBKDF2, os.urandom) are modelled by
parameter structures carrying exactly the round-trip laws their
documentation gives; everything written in the repository itself
(sanitisation, injection detection, SHA-256-based indexing, the
protect / reveal / search record transformers and the audit counters)
is translated directly and executably.
-/

set_option maxRecDepth 8000

namespace SecureData

/-! ## Python string primitives used by the source -/

/-- ASCII lower-casing of one character; `str.lower()` as the source
applies it to the (ASCII) field values before pattern matching. -/
def pyLower (c : Char) : Char :=
  if 65 ≤ c.toNat ∧ c.toNat ≤ 90 then Char.ofNat (c.toNat + 32) else c

/-- Code points treated as whitespace by Python's `str.strip` and by
the regex class `\s` (the ASCII and common Unicode space set). -/
def isPySpace (c : Char) : Bool :=
  ([0x09, 0x0a, 0x0b, 0x0c, 0x0d, 0x1c, 0x1d, 0x1e, 0x1f, 0x20, 0x85,
    0xa0, 0x1680, 0x2000, 0x2001, 0x2002, 0x2003, 0x2004, 0x2005,
    0x2006, 0x2007, 0x2008, 0x2009, 0x200a, 0x2028, 0x2029, 0x202f,
    0x205f, 0x3000] : List Nat).contains c.toNat

/-- The control / non-printable class `[\x00-\x1f\x7f-\x9f]` removed by
`_sanitize_input`. -/
def isCtl (c : Char) : Bool :=
  c.toNat ≤ 0x1f || (0x7f ≤ c.toNat && c.toNat ≤ 0x9f)

/-- If `p` is a prefix of `s`, the remaining suffix. -/
def dropPre : List Char → List Char → Option (List Char)
  | [], s => some s
  | _ :: _, [] => none
  | a :: ps, b :: cs => if a == b then dropPre ps cs else none

/-- Suffix of `s` following the first (leftmost) occurrence of `p`;
`none` when `p` does not occur.  This is `re.search` for a literal. -/
def afterFirst (p : List Char) : List Char → Option (List Char)
  | [] => dropPre p []
  | c :: cs =>
    match dropPre p (c :: cs) with
    | some r => some r
    | none => afterFirst p cs

/-- Does literal `p` occur in `s`? -/
def hasInfixL (p s : List Char) : Bool := (afterFirst p s).isSome

/-- Do the literals occur in order (with arbitrary, possibly empty,
gaps)?  This is `re.search`, with `re.DOTALL`, of the pattern
`p₁.*?p₂.*? ... pₙ`: a match exists iff the leftmost-first
decomposition succeeds. -/
def hasSeq : List (List Char) → List Char → Bool
  | [], _ => true
  | p :: ps, s =>
    match afterFirst p s with
    | some r => hasSeq ps r
    | none => false

/-- `re.search` of `w\s+` (word `w` immediately followed by at least
one whitespace character). -/
def wordSp (w : List Char) : List Char → Bool
  | [] => false
  | c :: cs =>
    (match dropPre w (c :: cs) with
     | some (d :: _) => isPySpace d
     | _ => false) || wordSp w cs

/-- `re.search` of `from\s+.*import` (with `re.DOTALL`): an occurrence
of `from` followed by a whitespace character with `import` occurring
somewhere after that whitespace character. -/
def fromImp : List Char → Bool
  | [] => false
  | c :: cs =>
    (match dropPre ("from").data (c :: cs) with
     | some (d :: r) => isPySpace d && hasInfixL ("import").data r
     | _ => false) || fromImp cs

/-- Suffix after the first `>` (used for the tag regex `<[^>]*>`). -/
def dropGt : List Char → Option (List Char)
  | [] => none
  | c :: cs => if c == '>' then some cs else dropGt cs

/-- One step of `re.sub(r'<[^>]*>', '', s)`: on `<`, if a later `>`
exists, the whole `<...>` span is removed and scanning resumes after
it; a `<` with no later `>` cannot start a match (nor can anything
after it, since no `>` remains), so the rest is kept verbatim.
Structural fuel (`≥` the list length) keeps the function executable. -/
def stripTagsF : Nat → List Char → List Char
  | 0, l => l
  | _ + 1, [] => []
  | f + 1, c :: cs =>
    if c == '<' then
      match dropGt cs with
      | some r => stripTagsF f r
      | none => c :: cs
    else c :: stripTagsF f cs

/-- `re.sub(r'<[^>]*>', '', s)` on a character list. -/
def stripTags (l : List Char) : List Char := stripTagsF l.length l

/-- Python `str.strip()` on a character list. -/
def trimSpaces (l : List Char) : List Char :=
  ((l.dropWhile isPySpace).reverse.dropWhile isPySpace).reverse

/-- `SecureDataProcessor._sanitize_input` for string input: drop
control characters, drop `<...>` tags, truncate to 1000 characters
(appending `...`), then strip surrounding whitespace. -/
def sanitize (data : String) : String :=
  let s1 := data.data.filter (fun c => !isCtl c)
  let s2 := stripTags s1
  let s3 := if s2.length > 1000 then s2.take 1000 ++ ("...").data else s2
  ⟨trimSpaces s3⟩

/-! ## Injection detection (`_detect_injection_patterns`) -/

/-- The SQL verbs of the pattern `(union|select|insert|update|delete|drop)\s+`. -/
def sqlWords : List (List Char) :=
  [("union").data, ("select").data, ("insert").data, ("update").data,
   ("delete").data, ("drop").data]

/-- `SecureDataProcessor._detect_injection_patterns` on a string: the
eight fixed hostile regexes searched over the lower-cased text (the
patterns are already lower-case, so `re.IGNORECASE` adds nothing after
lower-casing). -/
def detectInjection (text : String) : Bool :=
  let t := text.data.map pyLower
  hasSeq [("<script").data, (">").data, ("</script>").data] t
  || hasInfixL ("javascript:").data t
  || sqlWords.any (fun w => wordSp w t)
  || hasInfixL ("||").data t || hasInfixL ("&&").data t
      || hasInfixL (";").data t
  || hasInfixL ("eval(").data t || hasInfixL ("exec(").data t
      || hasInfixL ("system(").data t
  || hasSeq [("\x7b\x7b").data, ("\x7d\x7d").data] t
      || hasSeq [("$\x7b").data, ("\x7d").data] t
  || hasInfixL ("prompt(").data t || hasInfixL ("alert(").data t
      || hasInfixL ("confirm(").data t
  || wordSp ("import").data t || fromImp t

/-! ## SHA-256 (`hashlib.sha256`), over byte lists

A complete, executable translation of FIPS 180-4 SHA-256, used by
`_hash_for_indexing`.  All 32-bit words are `Nat`s kept below `2^32`
explicitly. -/

/-- Reduction modulo `2^32`. -/
def w32 (n : Nat) : Nat := n % 4294967296

/-- 32-bit right rotation (for `x < 2^32`, `r < 32`). -/
def rotr32 (x r : Nat) : Nat := x / 2 ^ r + x % 2 ^ r * 2 ^ (32 - r)

/-- 32-bit bitwise complement (for `x < 2^32`). -/
def not32 (x : Nat) : Nat := 4294967295 - x

def shaCh (e f g : Nat) : Nat := (e &&& f) ^^^ (not32 e &&& g)

def shaMaj (a b c : Nat) : Nat := (a &&& b) ^^^ (a &&& c) ^^^ (b &&& c)

/-- FIPS 180-4 `Σ₀` (rotations by 2, 13, 22). -/
def sumK0 (x : Nat) : Nat := rotr32 x 2 ^^^ rotr32 x 13 ^^^ rotr32 x 22

/-- FIPS 180-4 `Σ₁` (rotations by 6, 11, 25). -/
def sumK1 (x : Nat) : Nat := rotr32 x 6 ^^^ rotr32 x 11 ^^^ rotr32 x 25

/-- FIPS 180-4 `σ₀` (rotations by 7, 18, shift by 3). -/
def sigW0 (x : Nat) : Nat := rotr32 x 7 ^^^ rotr32 x 18 ^^^ x / 2 ^ 3

/-- FIPS 180-4 `σ₁` (rotations by 17, 19, shift by 10). -/
def sigW1 (x : Nat) : Nat := rotr32 x 17 ^^^ rotr32 x 19 ^^^ x / 2 ^ 10

/-- The 64 SHA-256 round constants (the fractional cube-root words of
the first sixty-four primes, written in decimal). -/
def shaK : Array Nat := #[
  1116352408, 1899447441, 3049323471, 3921009573, 961987163,
  1508970993, 2453635748, 2870763221, 3624381080, 310598401,
  607225278, 1426881987, 1925078388, 2162078206, 2614888103,
  3248222580, 3835390401, 4022224774, 264347078, 604807628,
  770255983, 1249150122, 1555081692, 1996064986, 2554220882,
  2821834349, 2952996808, 3210313671, 3336571891, 3584528711,
  113926993, 338241895, 666307205, 773529912, 1294757372,
  1396182291, 1695183700, 1986661051, 2177026350, 2456956037,
  2730485921, 2820302411, 3259730800, 3345764771, 3516065817,
  3600352804, 4094571909, 275423344, 430227734, 506948616,
  659060556, 883997877, 958139571, 1322822218, 1537002063,
  1747873779, 1955562222, 2024104815, 2227730452, 2361852424,
  2428436474, 2756734187, 3204031479, 3329325298]

/-- The SHA-256 working state (eight 32-bit words). -/
structure H8 where
  a : Nat
  b : Nat
  c : Nat
  d : Nat
  e : Nat
  f : Nat
  g : Nat
  h : Nat
deriving DecidableEq

/-- Initial SHA-256 hash value. -/
def shaH0 : H8 :=
  ⟨1779033703, 3144134277, 1013904242, 2773480762,
   1359893119, 2600822924, 528734635, 1541459225⟩

/-- The sixteen 32-bit big-endian words of one 64-byte block. -/
def blockWords (block : List Nat) : Array Nat :=
  ((List.range 16).map (fun i =>
    block.getD (4 * i) 0 * 16777216 + block.getD (4 * i + 1) 0 * 65536 +
    block.getD (4 * i + 2) 0 * 256 + block.getD (4 * i + 3) 0)).toArray

/-- The 64-entry message schedule of one block. -/
def msgSchedule (block : List Nat) : Array Nat :=
  (List.range 48).foldl (fun w t =>
    let i := t + 16
    w.push (w32 (sigW1 (w.getD (i - 2) 0) + w.getD (i - 7) 0 +
                 sigW0 (w.getD (i - 15) 0) + w.getD (i - 16) 0)))
    (blockWords block)

/-- One SHA-256 round. -/
def shaRound (w : Array Nat) (st : H8) (t : Nat) : H8 :=
  let t1 := w32 (st.h + sumK1 st.e + shaCh st.e st.f st.g +
                 shaK.getD t 0 + w.getD t 0)
  let t2 := w32 (sumK0 st.a + shaMaj st.a st.b st.c)
  ⟨w32 (t1 + t2), st.a, st.b, st.c, w32 (st.d + t1), st.e, st.f, st.g⟩

/-- SHA-256 compression of one 64-byte block into the running hash. -/
def shaCompress (hv : H8) (block : List Nat) : H8 :=
  let w := msgSchedule block
  let s := (List.range 64).foldl (shaRound w) hv
  ⟨w32 (hv.a + s.a), w32 (hv.b + s.b), w32 (hv.c + s.c), w32 (hv.d + s.d),
   w32 (hv.e + s.e), w32 (hv.f + s.f), w32 (hv.g + s.g), w32 (hv.h + s.h)⟩

/-- Big-endian bytes of the 64-bit message bit length. -/
def lenBytes (n : Nat) : List Nat :=
  (List.range 8).map (fun i => n / 2 ^ (8 * (7 - i)) % 256)

/-- SHA-256 padding: `0x80`, zeros to 56 mod 64, 8-length bytes. -/
def shaPad (msg : List Nat) : List Nat :=
  msg ++ [128] ++ List.replicate ((119 - msg.length % 64) % 64) 0 ++
    lenBytes (8 * msg.length)

/-- SHA-256 digest state of a byte list. -/
def sha256 (msg : List Nat) : H8 :=
  let padded := shaPad msg
  ((List.range (padded.length / 64)).map
    (fun i => (padded.drop (64 * i)).take 64)).foldl shaCompress shaH0

/-- Lower-case hex digit. -/
def hexDigit (n : Nat) : Char :=
  if n < 10 then Char.ofNat (48 + n) else Char.ofNat (87 + n)

/-- Eight hex digits of one 32-bit word. -/
def wordHex (w : Nat) : List Char :=
  [hexDigit (w / 16 ^ 7 % 16), hexDigit (w / 16 ^ 6 % 16),
   hexDigit (w / 16 ^ 5 % 16), hexDigit (w / 16 ^ 4 % 16),
   hexDigit (w / 16 ^ 3 % 16), hexDigit (w / 16 ^ 2 % 16),
   hexDigit (w / 16 % 16), hexDigit (w % 16)]

/-- `hashlib.sha256(·).hexdigest()`: the 64-character hex digest. -/
def sha256hex (msg : List Nat) : String :=
  ⟨[sha256 msg |>.a, sha256 msg |>.b, sha256 msg |>.c, sha256 msg |>.d,
    sha256 msg |>.e, sha256 msg |>.f, sha256 msg |>.g,
    sha256 msg |>.h].flatMap wordHex⟩

/-- UTF-8 bytes of one character (Python `str.encode()`). -/
def utf8Bytes (c : Char) : List Nat :=
  let n := c.toNat
  if n < 128 then [n]
  else if n < 2048 then [192 + n / 64, 128 + n % 64]
  else if n < 65536 then [224 + n / 4096, 128 + n / 64 % 64, 128 + n % 64]
  else [240 + n / 262144, 128 + n / 4096 % 64, 128 + n / 64 % 64,
        128 + n % 64]

/-- Python `str.encode()` (UTF-8). -/
def strBytes (s : String) : List Nat := s.data.flatMap utf8Bytes

/-- `SecureDataProcessor._hash_for_indexing`:
`hashlib.sha256(data.encode()).hexdigest()[:16]`. -/
def hash_for_indexing (data : String) : String :=
  ⟨(sha256hex (strBytes data)).data.take 16⟩

/-! ## Data model: scalar cells and record sets -/

/-- A scalar cell of a record set: a string, an integer, or the
missing value (pandas `NaN`). -/
inductive Value where
  | vStr : String → Value
  | vInt : Int → Value
  | vNull : Value
deriving DecidableEq

open Value

/-- Python `str(value)` on a cell (pandas renders the missing value as
`nan`). -/
def pyStr : Value → String
  | vStr s => s
  | vInt n => toString n
  | vNull => "nan"

/-- `str(value) if pd.notna(value) else ""` (line 179 of the source). -/
def pyStrOrEmpty : Value → String
  | vNull => ""
  | v => pyStr v

/-- Python `s.startswith(p)` (by code points). -/
def pyStartsW (s p : String) : Bool := p.data.isPrefixOf s.data

/-- Python `s[n:]` (by code points). -/
def pySlice (s : String) (n : Nat) : String := ⟨s.data.drop n⟩

/-- A pandas `==`-comparison of a cell against a string scalar:
only an equal string cell compares true. -/
def valueEqStr (v : Value) (q : String) : Bool :=
  match v with
  | vStr s => s == q
  | _ => false

/-- A record set, column-major: columns in order, each column a name
together with its list of cells (all columns have the same length in a
well-formed record set). -/
abbrev DataFrame : Type := List (String × List Value)

/-- The column names, in order (`df.columns`). -/
def colNames (df : DataFrame) : List String := df.map (fun p => p.1)

/-- The number of records (`len(df)`): the length of the first column
of a well-formed record set. -/
def nRows (df : DataFrame) : Nat :=
  match df with
  | [] => 0
  | p :: _ => p.2.length

/-- `df[c]`: the cells of the column named `c`. -/
def getCol (c : String) : DataFrame → Option (List Value)
  | [] => none
  | p :: rest => if p.1 = c then some p.2 else getCol c rest

/-- `df[c] = vs`: replace the column named `c`, or append it as a new
last column when absent. -/
def setCol (df : DataFrame) (c : String) (vs : List Value) : DataFrame :=
  if (colNames df).contains c then
    df.map (fun p => if p.1 = c then (c, vs) else p)
  else df ++ [(c, vs)]

/-- Every column has exactly `n` cells. -/
def Uniform (df : DataFrame) (n : Nat) : Prop :=
  ∀ p ∈ df, p.2.length = n

instance (df : DataFrame) (n : Nat) : Decidable (Uniform df n) :=
  List.decidableBAll _ df

/-! ## Field classification (constructor configuration) -/

/-- `self.sensitive_fields` (insertion order of the Python dict). -/
def sensitive_fields : List (String × List String) :=
  [("cnpj", ["Emitente CNPJ", "Destinatário CNPJ", "Transportadora CNPJ"]),
   ("cpf", ["Destinatário CPF"]),
   ("ie", ["Emitente IE", "Destinatário IE"]),
   ("names", ["Emitente Nome", "Destinatário Nome", "Transportadora Nome",
              "Emitente Fantasia"]),
   ("document_ids", ["Número NF", "Chave NFe", "Protocolo"]),
   ("address", ["Emitente CEP", "Destinatário CEP", "Emitente Município",
                "Destinatário Município", "Emitente Logradouro",
                "Destinatário Logradouro"])]

/-- `self.public_fields`. -/
def public_fields : List (String × List String) :=
  [("product_info", ["Produto", "Descrição", "NCM", "CFOP", "Unidade",
                     "Quantidade"]),
   ("tax_values", ["Valor Unitário", "Valor Total", "Base ICMS",
                   "Alíquota ICMS", "Valor ICMS", "Base PIS",
                   "Alíquota PIS", "Valor PIS", "Base COFINS",
                   "Alíquota COFINS", "Valor COFINS", "Valor IPI",
                   "Base IPI", "Alíquota IPI"]),
   ("operation_info", ["Natureza Operação", "UF", "Modelo", "Série",
                       "Tipo NF", "Finalidade"]),
   ("dates", ["Data Emissão", "Data Saída/Entrada"])]

/-- All configured sensitive field names, in traversal order. -/
def allSensitive : List String :=
  (sensitive_fields.map (fun p => p.2)).flatten

/-- All configured public field names, in traversal order. -/
def allPublic : List String := (public_fields.map (fun p => p.2)).flatten

/-- The sensitive columns of a record set (lines 155-159): every
configured sensitive field present among the columns, in group, then
field, declaration order. -/
def sensitiveColumnsOf (cols : List String) : List String :=
  allSensitive.filter (fun f => cols.contains f)

/-- The public columns of a record set (lines 162-166). -/
def publicColumnsOf (cols : List String) : List String :=
  allPublic.filter (fun f => cols.contains f)

/-- The four audit-metadata columns appended by the protect operation. -/
def metaNames : List String :=
  ["_encrypted_timestamp", "_encryption_version", "_public_fields_count",
   "_encrypted_fields_count"]

/-! ## Audit counters and the cryptographic backend -/

/-- `self.encryption_stats`. -/
structure Stats where
  total_records : Nat
  encrypted_fields : Nat
  public_fields : Nat
  blocked_injections : Nat
  timestamp : String
deriving DecidableEq

/-- The counters of a freshly constructed engine. -/
def initStats (ts : String) : Stats := ⟨0, 0, 0, 0, ts⟩

/-- Modelled from the spec: the third-party primitives the source
calls but does not define — `cryptography.fernet.Fernet` (authenticated
symmetric encryption over the loaded key; decryption returns `none`
on authentication failure or malformed input) and the `base64`
standard codec.  The spec requires exactly that both round-trip:
an encrypt-then-decrypt of any plaintext under the same key succeeds
and returns the plaintext, and base64 decoding inverts encoding. -/
structure CryptoBackend where
  Ct : Type
  fernet_encrypt : String → Ct
  fernet_decrypt : Ct → Option String
  b64encode : Ct → String
  b64decode : String → Option Ct
  b64_dec_enc : ∀ c, b64decode (b64encode c) = some c
  fernet_dec_enc : ∀ s, fernet_decrypt (fernet_encrypt s) = some s

/-- A concrete backend (ciphertext carried as the plaintext itself),
used to instantiate witnesses. -/
def trivialBackend : CryptoBackend where
  Ct := String
  fernet_encrypt := id
  fernet_decrypt := some
  b64encode := id
  b64decode := some
  b64_dec_enc := fun _ => rfl
  fernet_dec_enc := fun _ => rfl

/-! ## The protect operation (`encrypt_sensitive_data`) -/

/-- `_detect_injection_patterns` as called at line 182: the stateful
helper increments the blocked counter itself (line 114) whenever a
pattern matches. -/
def detectWithStats (st : Stats) (s : String) : Bool × Stats :=
  if detectInjection s then
    (true, { st with blocked_injections := st.blocked_injections + 1 })
  else (false, st)

/-- The per-cell body of the protect loop (lines 177-203): coerce to
text, block injections (substituting the sentinel and incrementing the
blocked counter a second time at line 185), sanitize, then either
encrypt (marker token plus index hash, counting the field) or keep the
coerced text with an empty hash cell. -/
def processCell (F : CryptoBackend) (st : Stats) (v : Value) :
    Value × String × Stats :=
  let sv0 := pyStrOrEmpty v
  let bs := detectWithStats st sv0
  let sv := if bs.1 then "[BLOCKED_CONTENT]" else sv0
  let st2 := if bs.1 then
    { bs.2 with blocked_injections := bs.2.blocked_injections + 1 }
    else bs.2
  let sz := sanitize sv
  if sz ≠ "" ∧ sz ≠ "0" then
    (vStr ("ENC:" ++ F.b64encode (F.fernet_encrypt sz)),
     hash_for_indexing sz,
     { st2 with encrypted_fields := st2.encrypted_fields + 1 })
  else
    (vStr sv, "", st2)

/-- The protect loop over one sensitive column, threading the audit
counters and collecting the encrypted cells and their index hashes. -/
def processColumn (F : CryptoBackend) (st : Stats) (cells : List Value) :
    List Value × List String × Stats :=
  cells.foldl
    (fun acc v =>
      let r := processCell F acc.2.2 v
      (acc.1 ++ [r.1], acc.2.1 ++ [r.2.1], r.2.2))
    ([], [], st)

/-- One iteration of the protect loop over sensitive columns
(lines 172-207): process the column read from the input record set,
then overwrite the column and its `<column>_hash` sibling in the
accumulating copy. -/
def encStep (F : CryptoBackend) (df : DataFrame)
    (acc : DataFrame × Stats) (c : String) : DataFrame × Stats :=
  let r := processColumn F acc.2 ((getCol c df).getD [])
  (setCol (setCol acc.1 c r.1) (c ++ "_hash") (r.2.1.map vStr), r.2.2)

/-- `SecureDataProcessor.encrypt_sensitive_data`.  `now` stands for
`datetime.now().isoformat()` at the metadata-writing point. -/
def encrypt_sensitive_data (F : CryptoBackend) (now : String) (st : Stats)
    (df : DataFrame) : DataFrame × Stats :=
  let st1 := { st with total_records := nRows df }
  let sens := sensitiveColumnsOf (colNames df)
  let pub := publicColumnsOf (colNames df)
  let es := sens.foldl (encStep F df) (df, st1)
  let st2 := { es.2 with public_fields := pub.length }
  let edf := setCol es.1 "_encrypted_timestamp"
    (List.replicate (nRows df) (vStr now))
  let edf := setCol edf "_encryption_version"
    (List.replicate (nRows df) (vStr "2.0_selective"))
  let edf := setCol edf "_public_fields_count"
    (List.replicate (nRows df) (vInt pub.length))
  let edf := setCol edf "_encrypted_fields_count"
    (List.replicate (nRows df) (vInt sens.length))
  (edf, st2)

/-! ## The reveal operation (`decrypt_sensitive_data`) -/

/-- The per-cell body of the reveal loop (lines 238-249), on the
coerced cell text: strip the `ENC:` marker, base64-decode, decrypt;
any failure degrades to the sentinel; unmarked text passes through. -/
def decryptCellStr (F : CryptoBackend) (sv : String) : String :=
  if pyStartsW sv "ENC:" then
    match F.b64decode (pySlice sv 4) with
    | some ct =>
      match F.fernet_decrypt ct with
      | some pt => pt
      | none => "[DECRYPT_ERROR]"
    | none => "[DECRYPT_ERROR]"
  else sv

/-- One iteration of the reveal loop (lines 233-251): if the targeted
column exists, overwrite it in the accumulating copy with the per-cell
reveal of the column as read from the input record set. -/
def decStep (F : CryptoBackend) (df : DataFrame)
    (acc : DataFrame) (c : String) : DataFrame :=
  if (colNames df).contains c then
    setCol acc c
      (((getCol c df).getD []).map
        (fun v => vStr (decryptCellStr F (pyStr v))))
  else acc

/-- `SecureDataProcessor.decrypt_sensitive_data`.  When no field list
is supplied, every column with at least one marker-carrying cell is
auto-detected (lines 225-228). -/
def decrypt_sensitive_data (F : CryptoBackend) (df : DataFrame)
    (fields : Option (List String)) : DataFrame :=
  let fs : List String := match fields with
    | some l => l
    | none =>
      (df.filter (fun p => p.2.any (fun v => pyStartsW (pyStr v) "ENC:"))).map
        (fun p => p.1)
  fs.foldl (decStep F df) df

/-! ## Hash search (`search_by_hash`) -/

/-- Keep the entries of `xs` selected by `mask` (pandas boolean-mask
row filtering, applied per column). -/
def maskFilter : List Bool → List α → List α
  | true :: m, x :: xs => x :: maskFilter m xs
  | false :: m, _ :: xs => maskFilter m xs
  | _, _ => []

/-- `SecureDataProcessor.search_by_hash`: when the `<field>_hash`
column is absent an empty record set is returned (lines 260-262);
otherwise the rows whose hash cell equals the query's index hash. -/
def search_by_hash (df : DataFrame) (field sval : String) : DataFrame :=
  let hc := field ++ "_hash"
  if (colNames df).contains hc then
    let h := hash_for_indexing sval
    let mask := ((getCol hc df).getD []).map (fun v => valueEqStr v h)
    df.map (fun p => (p.1, maskFilter mask p.2))
  else []

/-! ## Key material (`_generate_or_load_key`) -/

/-- Modelled from the spec: `PBKDF2HMAC` of the `cryptography` package
(an iterated SHA-256-based KDF mapping passphrase, salt, iteration
count and output length to key bytes), which the source calls but
does not define. -/
structure KDF where
  derive : String → List Nat → Nat → Nat → List Nat

/-- Modelled from the spec: `os.urandom`, whose contract is to return
exactly `n` random bytes. -/
structure OSRandom where
  urandom : Nat → List Nat
  urandom_len : ∀ n, (urandom n).length = n

/-- Modelled from the spec: `base64.urlsafe_b64encode` on key bytes. -/
structure UrlB64 where
  enc : List Nat → List Nat

/-- A concrete `KDF` / `OSRandom` / `UrlB64` triple for witnesses. -/
def trivialKDF : KDF := ⟨fun _ _ _ n => List.replicate n 0⟩

def trivialRandom : OSRandom := ⟨fun n => List.replicate n 0,
  fun n => List.length_replicate n 0⟩

def trivialUrlB64 : UrlB64 := ⟨id⟩

/-- `SecureDataProcessor._generate_or_load_key`.  `existing` is the
content of the key file when present; `genPw` stands for the random
passphrase `secrets.token_urlsafe(32)` generated when none is
supplied.  The result pairs the returned key with the key material
newly written to the key file (`none` when nothing is written). -/
def generate_or_load_key (K : KDF) (U : UrlB64) (R : OSRandom)
    (existing : Option (List Nat)) (password : Option String)
    (genPw : String) : List Nat × Option (List Nat) :=
  match existing with
  | some k => (k, none)
  | none =>
    let pw := match password with
      | some p => p
      | none => genPw
    let salt := R.urandom 16
    let key := U.enc (K.derive pw salt 100000 32)
    (key, some key)

/-! ## Pure per-cell characterization of the protect loop -/

/-- The text a sensitive cell contributes to sanitisation: its coerced
string, with the sentinel substituted when an injection pattern fires. -/
def blockSubst (v : Value) : String :=
  if detectInjection (pyStrOrEmpty v) then "[BLOCKED_CONTENT]"
  else pyStrOrEmpty v

/-- The value the protect loop stores for one sensitive cell
(statelessly). -/
def cellOut (F : CryptoBackend) (v : Value) : Value :=
  let sz := sanitize (blockSubst v)
  if sz ≠ "" ∧ sz ≠ "0" then
    vStr ("ENC:" ++ F.b64encode (F.fernet_encrypt sz))
  else vStr (blockSubst v)

/-- The hash cell the protect loop stores for one sensitive cell. -/
def cellHash (v : Value) : String :=
  let sz := sanitize (blockSubst v)
  if sz ≠ "" ∧ sz ≠ "0" then hash_for_indexing sz else ""

/-- How one sensitive cell moves the blocked / encrypted counters. -/
def cellBump (v : Value) : Nat × Nat :=
  (if detectInjection (pyStrOrEmpty v) then 2 else 0,
   if sanitize (blockSubst v) ≠ "" ∧ sanitize (blockSubst v) ≠ "0" then 1
   else 0)

theorem sanitize_sentinel : sanitize "[BLOCKED_CONTENT]" = "[BLOCKED_CONTENT]" := by
  decide

theorem processCell_eq (F : CryptoBackend) (st : Stats) (v : Value) :
    processCell F st v =
      (cellOut F v, cellHash v,
       { st with
         blocked_injections := st.blocked_injections + (cellBump v).1,
         encrypted_fields := st.encrypted_fields + (cellBump v).2 }) := by
  cases st with
  | mk tr ef pf bi ts =>
    cases hb : detectInjection (pyStrOrEmpty v)
    · by_cases hz : sanitize (pyStrOrEmpty v) ≠ "" ∧
          sanitize (pyStrOrEmpty v) ≠ "0"
      · simp [processCell, detectWithStats, cellOut, cellHash, cellBump,
              blockSubst, hb, hz]
      · simp [processCell, detectWithStats, cellOut, cellHash, cellBump,
              blockSubst, hb, hz]
    · have hz : sanitize "[BLOCKED_CONTENT]" ≠ "" ∧
          sanitize "[BLOCKED_CONTENT]" ≠ "0" := by
        rw [sanitize_sentinel]
        exact ⟨by decide, by decide⟩
      simp [processCell, detectWithStats, cellOut, cellHash, cellBump,
            blockSubst, hb, hz]

/-- The audit counters after processing one column. -/
def statsAfter (F : CryptoBackend) (st : Stats) (cells : List Value) :
    Stats :=
  cells.foldl (fun s v => (processCell F s v).2.2) st

theorem processColumn_eq (F : CryptoBackend) (st : Stats)
    (cells : List Value) :
    processColumn F st cells =
      (cells.map (cellOut F), cells.map cellHash, statsAfter F st cells) := by
  suffices h : ∀ (cells : List Value) (a : List Value) (b : List String)
      (st : Stats),
      cells.foldl
        (fun acc v =>
          let r := processCell F acc.2.2 v
          (acc.1 ++ [r.1], acc.2.1 ++ [r.2.1], r.2.2))
        (a, b, st) =
        (a ++ cells.map (cellOut F), b ++ cells.map cellHash,
         statsAfter F st cells) by
    simpa using h cells [] [] st
  intro cells
  induction cells with
  | nil => intro a b st; simp [statsAfter]
  | cons v vs ih =>
    intro a b st
    simp only [List.foldl_cons, List.map_cons, statsAfter]
    rw [ih]
    simp [processCell_eq, statsAfter]

theorem statsAfter_total (F : CryptoBackend) (st : Stats)
    (cells : List Value) :
    (statsAfter F st cells).total_records = st.total_records ∧
    (statsAfter F st cells).public_fields = st.public_fields ∧
    (statsAfter F st cells).timestamp = st.timestamp := by
  induction cells generalizing st with
  | nil => simp [statsAfter]
  | cons v vs ih =>
    simpa [statsAfter, List.foldl_cons, processCell_eq] using
      ih { st with
           blocked_injections := st.blocked_injections + (cellBump v).1,
           encrypted_fields := st.encrypted_fields + (cellBump v).2 }

/-! ## Association-list lemmas for columns -/

theorem getCol_replace_self (df : DataFrame) (c : String) (vs : List Value) :
    getCol c (df.map (fun p => if p.1 = c then (c, vs) else p)) =
      (getCol c df).map (fun _ => vs) := by
  induction df with
  | nil => simp [getCol]
  | cons p rest ih =>
    by_cases hpc : p.1 = c
    · simp [getCol, hpc]
    · simpa [getCol, hpc] using ih

theorem getCol_replace_ne (df : DataFrame) {c c' : String} (vs : List Value)
    (h : c ≠ c') :
    getCol c (df.map (fun p => if p.1 = c' then (c', vs) else p)) =
      getCol c df := by
  induction df with
  | nil => simp [getCol]
  | cons p rest ih =>
    by_cases hp : p.1 = c'
    · simp [getCol, hp, Ne.symm h, fun hpc : p.1 = c => h (hpc ▸ hp)]
      exact ih
    · by_cases hpc : p.1 = c
      · simp [getCol, hp, hpc, h]
      · simpa [getCol, hp, hpc] using ih

theorem getCol_append_single (df : DataFrame) {c c' : String}
    (vs : List Value) :
    getCol c (df ++ [(c', vs)]) =
      match getCol c df with
      | some r => some r
      | none => if c' = c then some vs else none := by
  induction df with
  | nil => simp [getCol]
  | cons p rest ih =>
    by_cases hpc : p.1 = c
    · simp [getCol, hpc]
    · simpa [getCol, hpc] using ih

theorem contains_iff_getCol (df : DataFrame) (c : String) :
    (colNames df).contains c = true ↔ (getCol c df).isSome = true := by
  induction df with
  | nil => simp [colNames, getCol]
  | cons p rest ih =>
    by_cases hpc : p.1 = c
    · simp [colNames, getCol, hpc]
    · simp only [colNames, List.map_cons, List.contains_cons,
        Bool.or_eq_true, getCol, hpc, if_false]
      constructor
      · rintro (h1 | h2)
        · exact absurd (beq_iff_eq.mp h1).symm hpc
        · exact ih.mp (by simpa [colNames] using h2)
      · intro h
        exact Or.inr (by simpa [colNames] using ih.mpr h)

theorem getCol_setCol_self (df : DataFrame) (c : String) (vs : List Value) :
    getCol c (setCol df c vs) = some vs := by
  unfold setCol
  split
  · rename_i h
    have hs := (contains_iff_getCol df c).mp h
    rw [getCol_replace_self]
    cases hg : getCol c df with
    | none => rw [hg] at hs; simp at hs
    | some r => simp
  · rename_i h
    have hs : getCol c df = none := by
      cases hg : getCol c df with
      | none => rfl
      | some r =>
        exact absurd ((contains_iff_getCol df c).mpr (by simp [hg])) h
    rw [getCol_append_single, hs]
    simp

theorem getCol_setCol_ne (df : DataFrame) {c c' : String}
    (vs : List Value) (h : c ≠ c') :
    getCol c (setCol df c' vs) = getCol c df := by
  unfold setCol
  split
  · exact getCol_replace_ne df vs h
  · rw [getCol_append_single]
    cases hg : getCol c df with
    | none => simp [Ne.symm h]
    | some r => simp

theorem getCol_map_val (df : DataFrame) (c : String)
    (g : List Value → List Value) :
    getCol c (df.map (fun p => (p.1, g p.2))) = (getCol c df).map g := by
  induction df with
  | nil => simp [getCol]
  | cons p rest ih =>
    by_cases hpc : p.1 = c
    · simp [getCol, hpc]
    · simpa [getCol, hpc] using ih

theorem getCol_mem (df : DataFrame) (c : String) (vs : List Value)
    (h : getCol c df = some vs) : (c, vs) ∈ df := by
  induction df with
  | nil => simp [getCol] at h
  | cons p rest ih =>
    by_cases hpc : p.1 = c
    · simp only [getCol, hpc, if_true, Option.some.injEq] at h
      subst h
      subst hpc
      exact List.mem_cons_self _ _
    · simp only [getCol, hpc, if_false] at h
      exact List.mem_cons_of_mem _ (ih h)

/-! ## Marker-token lemmas -/

theorem pyStartsW_enc (t : String) : pyStartsW ("ENC:" ++ t) "ENC:" = true := by
  simp [pyStartsW, String.data_append, List.isPrefixOf_iff_prefix]

theorem pySlice_enc (t : String) : pySlice ("ENC:" ++ t) 4 = t := by
  unfold pySlice
  rw [String.data_append]
  have h4 : ("ENC:").data.length = 4 := rfl
  rw [← h4, List.drop_left]

/-- Decrypting a well-formed `ENC:` token recovers its plaintext. -/
theorem decryptCellStr_token (F : CryptoBackend) (s : String) :
    decryptCellStr F ("ENC:" ++ F.b64encode (F.fernet_encrypt s)) = s := by
  unfold decryptCellStr
  rw [pyStartsW_enc, pySlice_enc]
  simp [F.b64_dec_enc, F.fernet_dec_enc]

theorem append_hash_ne_self (s : String) : s ≠ s ++ "_hash" := by
  intro h
  have hl := congrArg (fun x => x.data.length) h
  simp [String.data_append] at hl

theorem append_hash_inj {s t : String} (h : s ++ "_hash" = t ++ "_hash") :
    s = t := by
  have hd := congrArg (fun x => x.data) h
  simp only [String.data_append] at hd
  have hc := List.append_cancel_right hd
  cases s
  cases t
  exact congrArg String.mk hc

/-! ## Frame lemmas through the protect fold -/

theorem encFold_frame (F : CryptoBackend) (df : DataFrame)
    (sens : List String) (t : String) :
    ∀ acc : DataFrame × Stats, t ∉ sens → (∀ c ∈ sens, t ≠ c ++ "_hash") →
      getCol t (sens.foldl (encStep F df) acc).1 = getCol t acc.1 := by
  induction sens with
  | nil => intro acc _ _; rfl
  | cons c rest ih =>
    intro acc hmem hh
    have hne : t ≠ c := fun he => hmem (he ▸ List.mem_cons_self c rest)
    have hneh : t ≠ c ++ "_hash" := hh c (List.mem_cons_self c rest)
    rw [List.foldl_cons,
        ih _ (fun hr => hmem (List.mem_cons_of_mem _ hr))
          (fun c' hc' => hh c' (List.mem_cons_of_mem _ hc'))]
    unfold encStep
    rw [getCol_setCol_ne _ _ hneh, getCol_setCol_ne _ _ hne]

theorem encFold_stats (F : CryptoBackend) (df : DataFrame)
    (sens : List String) :
    ∀ acc : DataFrame × Stats,
      (sens.foldl (encStep F df) acc).2.total_records =
        acc.2.total_records ∧
      (sens.foldl (encStep F df) acc).2.public_fields =
        acc.2.public_fields ∧
      (sens.foldl (encStep F df) acc).2.timestamp = acc.2.timestamp := by
  induction sens with
  | nil => intro acc; exact ⟨rfl, rfl, rfl⟩
  | cons c rest ih =>
    intro acc
    rw [List.foldl_cons]
    have hstep := statsAfter_total F acc.2 ((getCol c df).getD [])
    have h2 := ih (encStep F df acc c)
    have hs : (encStep F df acc c).2 =
        statsAfter F acc.2 ((getCol c df).getD []) := by
      unfold encStep
      rw [processColumn_eq]
    rw [hs] at h2
    exact ⟨h2.1.trans hstep.1, h2.2.1.trans hstep.2.1,
           h2.2.2.trans hstep.2.2⟩

theorem encFold_sens (F : CryptoBackend) (df : DataFrame) (c : String) :
    ∀ (sens : List String) (acc : DataFrame × Stats),
      c ∈ sens → sens.Nodup →
      (∀ c' ∈ sens, c ≠ c' ++ "_hash") →
      (∀ c' ∈ sens, c ++ "_hash" ≠ c') →
      getCol c (sens.foldl (encStep F df) acc).1 =
        some (((getCol c df).getD []).map (cellOut F)) ∧
      getCol (c ++ "_hash") (sens.foldl (encStep F df) acc).1 =
        some (((getCol c df).getD []).map (fun v => vStr (cellHash v))) := by
  intro sens
  induction sens with
  | nil => intro acc h; simp at h
  | cons c0 rest ih =>
    intro acc hmem hnd hh1 hh2
    rw [List.foldl_cons]
    rcases List.mem_cons.mp hmem with hc | hc
    · subst hc
      have hcr : c ∉ rest := (List.nodup_cons.mp hnd).1
      have hrest1 : ∀ c' ∈ rest, c ≠ c' ++ "_hash" :=
        fun c' hc' => hh1 c' (List.mem_cons_of_mem _ hc')
      have hrest2 : ∀ c' ∈ rest, c ++ "_hash" ≠ c' :=
        fun c' hc' => hh2 c' (List.mem_cons_of_mem _ hc')
      have hhrest : ∀ c' ∈ rest, c ++ "_hash" ≠ c' ++ "_hash" :=
        fun c' hc' he => hcr (append_hash_inj he ▸ hc')
      constructor
      · rw [encFold_frame F df rest c _ hcr hrest1]
        unfold encStep
        rw [processColumn_eq]
        rw [getCol_setCol_ne _ _ (append_hash_ne_self c),
            getCol_setCol_self]
      · rw [encFold_frame F df rest (c ++ "_hash") _
            (fun hr => (hrest2 _ hr) rfl) hhrest]
        unfold encStep
        rw [processColumn_eq]
        rw [getCol_setCol_self]
        simp
    · exact ih (encStep F df acc c0) hc (List.nodup_cons.mp hnd).2
        (fun c' hc' => hh1 c' (List.mem_cons_of_mem _ hc'))
        (fun c' hc' => hh2 c' (List.mem_cons_of_mem _ hc'))

/-! ## Facts about the fixed field classification -/

theorem allSensitive_nodup : allSensitive.Nodup := by decide

theorem sens_not_hash :
    ∀ c ∈ allSensitive, ∀ c' ∈ allSensitive, c ≠ c' ++ "_hash" := by decide

theorem sens_not_meta :
    ∀ c ∈ allSensitive, c ∉ metaNames ∧ c ++ "_hash" ∉ metaNames := by decide

theorem pub_not_special :
    ∀ p ∈ allPublic, p ∉ allSensitive ∧
      (∀ c ∈ allSensitive, p ≠ c ++ "_hash") ∧ p ∉ metaNames := by decide

theorem mem_sensitiveColumnsOf {c : String} {cols : List String} :
    c ∈ sensitiveColumnsOf cols ↔ c ∈ allSensitive ∧ cols.contains c := by
  simp [sensitiveColumnsOf, List.mem_filter]

theorem mem_publicColumnsOf {c : String} {cols : List String} :
    c ∈ publicColumnsOf cols ↔ c ∈ allPublic ∧ cols.contains c := by
  simp [publicColumnsOf, List.mem_filter]

theorem sensitiveColumnsOf_nodup (cols : List String) :
    (sensitiveColumnsOf cols).Nodup :=
  allSensitive_nodup.filter _

/-! ## Column preservation through the whole protect operation -/

theorem encrypt_getCol_frame (F : CryptoBackend) (now : String) (st : Stats)
    (df : DataFrame) (t : String)
    (h1 : t ∉ sensitiveColumnsOf (colNames df))
    (h2 : ∀ c ∈ sensitiveColumnsOf (colNames df), t ≠ c ++ "_hash")
    (h3 : t ∉ metaNames) :
    getCol t (encrypt_sensitive_data F now st df).1 = getCol t df := by
  have hm : t ≠ "_encrypted_timestamp" ∧ t ≠ "_encryption_version" ∧
      t ≠ "_public_fields_count" ∧ t ≠ "_encrypted_fields_count" := by
    simpa [metaNames] using h3
  unfold encrypt_sensitive_data
  simp only
  rw [getCol_setCol_ne _ _ hm.2.2.2, getCol_setCol_ne _ _ hm.2.2.1,
      getCol_setCol_ne _ _ hm.2.1, getCol_setCol_ne _ _ hm.1,
      encFold_frame F df _ t _ h1 h2]

/-- The protect operation rewrites every sensitive column (and its
hash sibling) with the pure per-cell functions. -/
theorem encrypt_getCol_sens (F : CryptoBackend) (now : String) (st : Stats)
    (df : DataFrame) (c : String)
    (hmem : c ∈ sensitiveColumnsOf (colNames df)) :
    getCol c (encrypt_sensitive_data F now st df).1 =
      some (((getCol c df).getD []).map (cellOut F)) ∧
    getCol (c ++ "_hash") (encrypt_sensitive_data F now st df).1 =
      some (((getCol c df).getD []).map (fun v => vStr (cellHash v))) := by
  have hA : c ∈ allSensitive := (mem_sensitiveColumnsOf.mp hmem).1
  have hh1 : ∀ c' ∈ sensitiveColumnsOf (colNames df), c ≠ c' ++ "_hash" :=
    fun c' h' => sens_not_hash c hA c' (mem_sensitiveColumnsOf.mp h').1
  have hh2 : ∀ c' ∈ sensitiveColumnsOf (colNames df), c ++ "_hash" ≠ c' :=
    fun c' h' =>
      Ne.symm (sens_not_hash c' (mem_sensitiveColumnsOf.mp h').1 c hA)
  have hmeta := sens_not_meta c hA
  have hm1 : c ≠ "_encrypted_timestamp" ∧ c ≠ "_encryption_version" ∧
      c ≠ "_public_fields_count" ∧ c ≠ "_encrypted_fields_count" := by
    simpa [metaNames] using hmeta.1
  have hm2 : c ++ "_hash" ≠ "_encrypted_timestamp" ∧
      c ++ "_hash" ≠ "_encryption_version" ∧
      c ++ "_hash" ≠ "_public_fields_count" ∧
      c ++ "_hash" ≠ "_encrypted_fields_count" := by
    simpa [metaNames] using hmeta.2
  constructor
  · unfold encrypt_sensitive_data
    simp only
    rw [getCol_setCol_ne _ _ hm1.2.2.2, getCol_setCol_ne _ _ hm1.2.2.1,
        getCol_setCol_ne _ _ hm1.2.1, getCol_setCol_ne _ _ hm1.1]
    exact (encFold_sens F df c _ _ hmem (sensitiveColumnsOf_nodup _)
      hh1 hh2).1
  · unfold encrypt_sensitive_data
    simp only
    rw [getCol_setCol_ne _ _ hm2.2.2.2, getCol_setCol_ne _ _ hm2.2.2.1,
        getCol_setCol_ne _ _ hm2.2.1, getCol_setCol_ne _ _ hm2.1]
    exact (encFold_sens F df c _ _ hmem (sensitiveColumnsOf_nodup _)
      hh1 hh2).2

/-! ## Column characterization through the reveal fold -/

/-- The cells the reveal loop writes into a targeted column, as a pure
function of the input record set. -/
def revealCol (F : CryptoBackend) (df : DataFrame) (c : String) :
    List Value :=
  ((getCol c df).getD []).map (fun v => vStr (decryptCellStr F (pyStr v)))

theorem decFold_inv (F : CryptoBackend) (df : DataFrame)
    (fs : List String) (c : String) :
    ∀ acc : DataFrame, getCol c acc = some (revealCol F df c) →
      getCol c (fs.foldl (decStep F df) acc) = some (revealCol F df c) := by
  induction fs with
  | nil => intro acc h; exact h
  | cons c0 rest ih =>
    intro acc h
    rw [List.foldl_cons]
    refine ih _ ?_
    unfold decStep
    split
    · by_cases hc : c0 = c
      · subst hc
        exact getCol_setCol_self _ _ _
      · rw [getCol_setCol_ne _ _ (Ne.symm hc)]
        exact h
    · exact h

theorem decFold_mem (F : CryptoBackend) (df : DataFrame)
    (fs : List String) (c : String)
    (hcol : (colNames df).contains c = true) :
    ∀ acc : DataFrame, c ∈ fs →
      getCol c (fs.foldl (decStep F df) acc) = some (revealCol F df c) := by
  induction fs with
  | nil => intro acc h; simp at h
  | cons c0 rest ih =>
    intro acc hmem
    rw [List.foldl_cons]
    rcases List.mem_cons.mp hmem with hc | hc
    · subst hc
      refine decFold_inv F df rest c _ ?_
      unfold decStep
      rw [if_pos hcol]
      exact getCol_setCol_self _ _ _
    · exact ih _ hc

theorem decFold_frame (F : CryptoBackend) (df : DataFrame)
    (fs : List String) (c : String) :
    c ∉ fs →
    ∀ acc : DataFrame, getCol c (fs.foldl (decStep F df) acc) =
      getCol c acc := by
  induction fs with
  | nil => intro _ acc; rfl
  | cons c0 rest ih =>
    intro hmem acc
    have hne : c ≠ c0 := fun he => hmem (he ▸ List.mem_cons_self c0 rest)
    rw [List.foldl_cons, ih (fun hr => hmem (List.mem_cons_of_mem _ hr))]
    unfold decStep
    split
    · rw [getCol_setCol_ne _ _ hne]
    · rfl

/-! ## Claim C2 -/

/-- Claim C2, counterexample.  The claim says a hostile value
increments the blocked-injections counter by exactly one; processing
the single hostile cell `<script>alert(1)</script>` through the
protect operation increments it from 0 to 2 (once inside
`_detect_injection_patterns`, line 114, and once at the call site,
line 185). -/
theorem blocked_counter_cex :
    (encrypt_sensitive_data trivialBackend "now" (initStats "t")
        [("Emitente Nome", [Value.vStr "<script>alert(1)</script>"])]
      ).2.blocked_injections = 2 ∧ (2 : Nat) ≠ 1 := by
  constructor
  · decide
  · decide

/-- Claim C2, amended: for every sensitive-field value matching one of
the fixed hostile injection patterns, processing that value during a
protect operation increments the blocked-injections audit counter by
exactly two (the detector helper and its caller each add one), and the
value encrypted in its place is the fixed sentinel `[BLOCKED_CONTENT]`
— the stored cell is the encryption token of the sentinel and its hash
cell is the sentinel's index hash, never the original value. -/
theorem blocked_cell_spec (F : CryptoBackend) (st : Stats) (v : Value)
    (h : detectInjection (pyStrOrEmpty v) = true) :
    (processCell F st v).2.2.blocked_injections =
      st.blocked_injections + 2 ∧
    (processCell F st v).1 =
      Value.vStr ("ENC:" ++ F.b64encode (F.fernet_encrypt "[BLOCKED_CONTENT]")) ∧
    (processCell F st v).2.1 = hash_for_indexing "[BLOCKED_CONTENT]" := by
  have hz : sanitize "[BLOCKED_CONTENT]" ≠ "" ∧
      sanitize "[BLOCKED_CONTENT]" ≠ "0" := by
    rw [sanitize_sentinel]
    exact ⟨by decide, by decide⟩
  rw [processCell_eq]
  refine ⟨?_, ?_, ?_⟩
  · simp [cellBump, h]
  · simp [cellOut, blockSubst, h, sanitize_sentinel, hz]
  · simp [cellHash, blockSubst, h, sanitize_sentinel, hz]

/-- Claim C2, witness of `blocked_cell_spec` at the hostile value
`<script>alert(1)</script>`. -/
theorem blocked_cell_spec_witness :
    detectInjection (pyStrOrEmpty (Value.vStr "<script>alert(1)</script>")) =
      true ∧
    ((processCell trivialBackend (initStats "t")
        (Value.vStr "<script>alert(1)</script>")).2.2.blocked_injections =
      (initStats "t").blocked_injections + 2 ∧
     (processCell trivialBackend (initStats "t")
        (Value.vStr "<script>alert(1)</script>")).1 =
      Value.vStr ("ENC:" ++ trivialBackend.b64encode
        (trivialBackend.fernet_encrypt "[BLOCKED_CONTENT]")) ∧
     (processCell trivialBackend (initStats "t")
        (Value.vStr "<script>alert(1)</script>")).2.1 =
      hash_for_indexing "[BLOCKED_CONTENT]") :=
  ⟨by decide, blocked_cell_spec trivialBackend (initStats "t")
    (Value.vStr "<script>alert(1)</script>") (by decide)⟩

/-! ## Claim C3 -/

/-- Claim C3, counterexample.  The claim says a sensitive cell whose
sanitized value is empty is left equal to the sanitized text; for the
input `<x>` the sanitized value is `""` but the protect operation
leaves the cell as the unsanitized coerced text `<x>`. -/
theorem small_cell_cex :
    getCol "Emitente CNPJ"
        (encrypt_sensitive_data trivialBackend "now" (initStats "t")
          [("Emitente CNPJ", [Value.vStr "<x>"])]).1 =
      some [Value.vStr "<x>"] ∧
    sanitize "<x>" = "" ∧
    some [Value.vStr "<x>"] ≠ some [Value.vStr (sanitize "<x>")] := by
  refine ⟨by decide, by decide, by decide⟩

/-- Claim C3, amended: for every record and sensitive field, when the
sanitized value of the (injection-substituted) coerced cell text is
empty or the literal `"0"`, the protect operation leaves the cell
equal to that *unsanitized* coerced text (not the sanitized text) and
leaves the sibling hash cell empty; every other sensitive cell becomes
the encryption marker token of the sanitized value, with the sibling
hash cell holding the index hash of the sanitized value. -/
theorem protect_sensitive_cells (F : CryptoBackend) (now : String)
    (st : Stats) (df : DataFrame) (c : String) (cells : List Value)
    (hmem : c ∈ sensitiveColumnsOf (colNames df))
    (hcol : getCol c df = some cells) :
    getCol c (encrypt_sensitive_data F now st df).1 =
      some (cells.map (cellOut F)) ∧
    getCol (c ++ "_hash") (encrypt_sensitive_data F now st df).1 =
      some (cells.map (fun v => Value.vStr (cellHash v))) ∧
    (∀ v : Value,
      sanitize (blockSubst v) = "" ∨ sanitize (blockSubst v) = "0" →
      cellOut F v = Value.vStr (blockSubst v) ∧ cellHash v = "") ∧
    (∀ v : Value,
      sanitize (blockSubst v) ≠ "" → sanitize (blockSubst v) ≠ "0" →
      cellOut F v = Value.vStr
        ("ENC:" ++ F.b64encode (F.fernet_encrypt (sanitize (blockSubst v)))) ∧
      cellHash v = hash_for_indexing (sanitize (blockSubst v))) := by
  have hch := encrypt_getCol_sens F now st df c hmem
  rw [hcol] at hch
  refine ⟨hch.1, hch.2, ?_, ?_⟩
  · intro v hv
    have hne : ¬(sanitize (blockSubst v) ≠ "" ∧ sanitize (blockSubst v) ≠ "0") := by
      rcases hv with hv | hv <;> simp [hv]
    exact ⟨by simp [cellOut, hne], by simp [cellHash, hne]⟩
  · intro v h1 h2
    exact ⟨by simp [cellOut, h1, h2], by simp [cellHash, h1, h2]⟩

/-- Claim C3, witness of `protect_sensitive_cells` on a one-record set
with the sensitive column `Emitente CNPJ`. -/
theorem protect_sensitive_cells_witness :
    "Emitente CNPJ" ∈ sensitiveColumnsOf (colNames
      [("Emitente CNPJ", [Value.vStr "12.345.678/0001-90"])]) ∧
    getCol "Emitente CNPJ"
      [("Emitente CNPJ", [Value.vStr "12.345.678/0001-90"])] =
      some [Value.vStr "12.345.678/0001-90"] ∧
    getCol "Emitente CNPJ"
        (encrypt_sensitive_data trivialBackend "now" (initStats "t")
          [("Emitente CNPJ", [Value.vStr "12.345.678/0001-90"])]).1 =
      some ([Value.vStr "12.345.678/0001-90"].map (cellOut trivialBackend)) ∧
    getCol "Emitente CNPJ_hash"
        (encrypt_sensitive_data trivialBackend "now" (initStats "t")
          [("Emitente CNPJ", [Value.vStr "12.345.678/0001-90"])]).1 =
      some ([Value.vStr "12.345.678/0001-90"].map
        (fun v => Value.vStr (cellHash v))) :=
  ⟨by decide, by decide,
   (protect_sensitive_cells trivialBackend "now" (initStats "t")
      [("Emitente CNPJ", [Value.vStr "12.345.678/0001-90"])]
      "Emitente CNPJ" [Value.vStr "12.345.678/0001-90"]
      (by decide) (by decide)).1,
   (protect_sensitive_cells trivialBackend "now" (initStats "t")
      [("Emitente CNPJ", [Value.vStr "12.345.678/0001-90"])]
      "Emitente CNPJ" [Value.vStr "12.345.678/0001-90"]
      (by decide) (by decide)).2.1⟩

/-! ## Claim C4 -/

/-- Claim C4, confirmed: for every string `v` whose sanitized form is
non-empty and not `"0"` (and which trips no injection pattern, so that
the protect loop encrypts `sanitize v` itself), decrypting the token
produced by encrypting `sanitize v` under the same key yields exactly
`sanitize v`; in particular revealing the cell the protect loop stores
for `v` yields `sanitize v`. -/
theorem roundtrip_cell (F : CryptoBackend) (v : String)
    (h1 : sanitize v ≠ "") (h2 : sanitize v ≠ "0") :
    decryptCellStr F
      ("ENC:" ++ F.b64encode (F.fernet_encrypt (sanitize v))) =
      sanitize v ∧
    (detectInjection v = false →
      decryptCellStr F (pyStr (cellOut F (Value.vStr v))) = sanitize v) := by
  constructor
  · exact decryptCellStr_token F (sanitize v)
  · intro h0
    have hb : blockSubst (Value.vStr v) = v := by
      simp [blockSubst, pyStrOrEmpty, pyStr, h0]
    rw [show cellOut F (Value.vStr v) =
        Value.vStr ("ENC:" ++ F.b64encode (F.fernet_encrypt (sanitize v)))
      from by simp [cellOut, hb, h1, h2]]
    exact decryptCellStr_token F (sanitize v)

/-- Claim C4, witness of `roundtrip_cell` at `v = " abc "`. -/
theorem roundtrip_cell_witness :
    sanitize " abc " ≠ "" ∧ sanitize " abc " ≠ "0" ∧
    decryptCellStr trivialBackend
      ("ENC:" ++ trivialBackend.b64encode
        (trivialBackend.fernet_encrypt (sanitize " abc "))) =
      sanitize " abc " ∧
    decryptCellStr trivialBackend
      (pyStr (cellOut trivialBackend (Value.vStr " abc "))) =
      sanitize " abc " :=
  ⟨by decide, by decide,
   (roundtrip_cell trivialBackend " abc " (by decide) (by decide)).1,
   (roundtrip_cell trivialBackend " abc " (by decide) (by decide)).2
     (by decide)⟩

/-! ## Claim C5 -/

/-- Claim C5, counterexample.  The claim says a reveal returns every
unmarked cell unchanged for cells of any scalar type; revealing the
targeted field `A` over the integer cell `42` (which carries no
marker) replaces it by the string `"42"`. -/
theorem reveal_int_cex :
    decrypt_sensitive_data trivialBackend [("A", [Value.vInt 42])]
        (some ["A"]) =
      [("A", [Value.vStr "42"])] ∧
    Value.vStr "42" ≠ Value.vInt 42 := by
  exact ⟨by decide, by decide⟩

/-- Claim C5, amended: for every targeted field of a reveal operation,
every cell is replaced by the string coercion of its revealed text;
a cell whose coerced text does not begin with the encryption marker
keeps that coerced text, so *string* cells without the marker are
returned unchanged, while non-string scalars are returned as their
string coercion. -/
theorem reveal_characterization (F : CryptoBackend) (df : DataFrame)
    (fields : List String) (c : String)
    (hmem : c ∈ fields)
    (hcol : (colNames df).contains c = true) :
    getCol c (decrypt_sensitive_data F df (some fields)) =
      some (((getCol c df).getD []).map
        (fun v => Value.vStr (decryptCellStr F (pyStr v)))) ∧
    (∀ s : String, pyStartsW s "ENC:" = false → decryptCellStr F s = s) ∧
    (∀ s : String, pyStartsW s "ENC:" = false →
      Value.vStr (decryptCellStr F (pyStr (Value.vStr s))) =
        Value.vStr s) := by
  refine ⟨decFold_mem F df fields c hcol df hmem, ?_, ?_⟩
  · intro s hs
    unfold decryptCellStr
    rw [hs]
    simp
  · intro s hs
    have : decryptCellStr F s = s := by
      unfold decryptCellStr
      rw [hs]
      simp
    simp [pyStr, this]

/-- Claim C5, witness of `reveal_characterization` on a record set
holding one marked and one unmarked string cell. -/
theorem reveal_characterization_witness :
    "Emitente CNPJ" ∈ ["Emitente CNPJ"] ∧
    (colNames [("Emitente CNPJ",
        [Value.vStr "ENC:seg", Value.vStr "plain"])]).contains
      "Emitente CNPJ" = true ∧
    getCol "Emitente CNPJ"
      (decrypt_sensitive_data trivialBackend
        [("Emitente CNPJ", [Value.vStr "ENC:seg", Value.vStr "plain"])]
        (some ["Emitente CNPJ"])) =
      some (((getCol "Emitente CNPJ"
        [("Emitente CNPJ", [Value.vStr "ENC:seg", Value.vStr "plain"])]).getD
          []).map
        (fun v => Value.vStr (decryptCellStr trivialBackend (pyStr v)))) :=
  ⟨by decide, by decide,
   (reveal_characterization trivialBackend
      [("Emitente CNPJ", [Value.vStr "ENC:seg", Value.vStr "plain"])]
      ["Emitente CNPJ"] "Emitente CNPJ" (by decide) (by decide)).1⟩

/-! ## Claim C6 -/

/-- Claim C6, counterexample.  The claim says every field in no
configured group is byte-for-byte untouched by the protect operation;
on a record set that also carries the unconfigured columns
`Emitente CNPJ_hash` and `_encryption_version`, the protect operation
overwrites both (with the freshly computed index hashes and the
version tag). -/
theorem public_untouched_cex :
    getCol "Emitente CNPJ_hash"
        (encrypt_sensitive_data trivialBackend "now" (initStats "t")
          [("Emitente CNPJ", [Value.vStr "a"]),
           ("Emitente CNPJ_hash", [Value.vStr "orig"]),
           ("_encryption_version", [Value.vStr "keep"])]).1 ≠
      some [Value.vStr "orig"] ∧
    getCol "_encryption_version"
        (encrypt_sensitive_data trivialBackend "now" (initStats "t")
          [("Emitente CNPJ", [Value.vStr "a"]),
           ("Emitente CNPJ_hash", [Value.vStr "orig"]),
           ("_encryption_version", [Value.vStr "keep"])]).1 ≠
      some [Value.vStr "keep"] := by
  exact ⟨by decide, by decide⟩

/-- Claim C6, amended: for every input record set, every field
classified public — and every field in no configured group other than
a `<s>_hash` sibling of a sensitive column `s` of the set and other
than the four audit-metadata column names — has, in the output of the
protect operation, a cell byte-for-byte identical to the corresponding
input cell, for every record. -/
theorem public_untouched (F : CryptoBackend) (now : String) (st : Stats)
    (df : DataFrame) (c : String)
    (h : c ∈ publicColumnsOf (colNames df) ∨
      (c ∉ sensitiveColumnsOf (colNames df) ∧
       (∀ s ∈ sensitiveColumnsOf (colNames df), c ≠ s ++ "_hash") ∧
       c ∉ metaNames)) :
    getCol c (encrypt_sensitive_data F now st df).1 = getCol c df := by
  rcases h with h | h
  · have hp : c ∈ allPublic := (mem_publicColumnsOf.mp h).1
    have hps := pub_not_special c hp
    refine encrypt_getCol_frame F now st df c ?_ ?_ hps.2.2
    · intro hs
      exact hps.1 (mem_sensitiveColumnsOf.mp hs).1
    · intro s hs
      exact hps.2.1 s (mem_sensitiveColumnsOf.mp hs).1
  · exact encrypt_getCol_frame F now st df c h.1 h.2.1 h.2.2

/-- Claim C6, witness of `public_untouched` for the public column
`Produto` of a record set that also has a sensitive column. -/
theorem public_untouched_witness :
    ("Produto" ∈ publicColumnsOf (colNames
        [("Emitente CNPJ", [Value.vStr "a"]),
         ("Produto", [Value.vStr "Notebook"])]) ∨
      ("Produto" ∉ sensitiveColumnsOf (colNames
          [("Emitente CNPJ", [Value.vStr "a"]),
           ("Produto", [Value.vStr "Notebook"])]) ∧
       (∀ s ∈ sensitiveColumnsOf (colNames
          [("Emitente CNPJ", [Value.vStr "a"]),
           ("Produto", [Value.vStr "Notebook"])]),
         "Produto" ≠ s ++ "_hash") ∧
       "Produto" ∉ metaNames)) ∧
    getCol "Produto"
        (encrypt_sensitive_data trivialBackend "now" (initStats "t")
          [("Emitente CNPJ", [Value.vStr "a"]),
           ("Produto", [Value.vStr "Notebook"])]).1 =
      getCol "Produto"
        [("Emitente CNPJ", [Value.vStr "a"]),
         ("Produto", [Value.vStr "Notebook"])] :=
  ⟨Or.inl (by decide),
   public_untouched trivialBackend "now" (initStats "t")
     [("Emitente CNPJ", [Value.vStr "a"]),
      ("Produto", [Value.vStr "Notebook"])] "Produto"
     (Or.inl (by decide))⟩

/-! ## Claim C7 -/

/-- Claim C7, counterexample.  The claim says the records-processed
counter is a running total over successive protect calls; after
protect calls on record sets of 1 and then 2 records it holds 2, not
1 + 2 = 3 (and likewise fields-left-public holds the last call's
count). -/
theorem audit_totals_cex :
    (encrypt_sensitive_data trivialBackend "n2"
        (encrypt_sensitive_data trivialBackend "n1" (initStats "t")
          [("Produto", [Value.vStr "a"])]).2
        [("Produto", [Value.vStr "a", Value.vStr "b"])]).2.total_records =
      2 ∧ (2 : Nat) ≠ 1 + 2 := by
  exact ⟨by decide, by decide⟩

/-- Claim C7, amended: the records-processed and fields-left-public
counters are *overwritten* by every protect call rather than
accumulated: after any sequence of protect calls they hold the row
count and the public-column count of the last call only (whatever the
counters held before).  The stored timestamp is untouched by protect
calls. -/
theorem audit_totals (F : CryptoBackend) (now : String) (st : Stats)
    (df : DataFrame) :
    (encrypt_sensitive_data F now st df).2.total_records = nRows df ∧
    (encrypt_sensitive_data F now st df).2.public_fields =
      (publicColumnsOf (colNames df)).length ∧
    (encrypt_sensitive_data F now st df).2.timestamp = st.timestamp := by
  have hs := encFold_stats F df (sensitiveColumnsOf (colNames df))
    (df, { st with total_records := nRows df })
  exact ⟨hs.1, rfl, hs.2.2⟩

/-! ## Claim C9 -/

/-- Claim C9, confirmed: when persisted key material exists it is
returned unchanged, nothing is written, and the passphrase argument
(and the internally generated passphrase) are ignored; otherwise the
key is the url-safe base64 encoding of the KDF derivation from the
supplied-or-generated passphrase with a fresh 16-byte random salt and
100000 ≥ 100000 iterations, and exactly that key is persisted. -/
theorem key_obtainment (K : KDF) (U : UrlB64) (R : OSRandom)
    (k : List Nat) (p q : Option String) (g g' : String) :
    generate_or_load_key K U R (some k) p g = (k, none) ∧
    generate_or_load_key K U R (some k) p g =
      generate_or_load_key K U R (some k) q g' ∧
    (generate_or_load_key K U R none p g).1 =
      U.enc (K.derive (p.getD g) (R.urandom 16) 100000 32) ∧
    (generate_or_load_key K U R none p g).2 =
      some (generate_or_load_key K U R none p g).1 ∧
    (R.urandom 16).length = 16 ∧ 100000 ≤ 100000 := by
  refine ⟨rfl, rfl, ?_, rfl, R.urandom_len 16, le_refl _⟩
  cases p <;> rfl

/-! ## Row view of a record set

`search_by_hash` filters rows by a boolean mask computed from the hash
column.  To state what it returns record-wise, the column-major record
set is transposed into its list of rows. -/

/-- The first `n` rows of a record set, peeled off column heads. -/
def rowsOfAux : Nat → DataFrame → List (List (String × Value))
  | 0, _ => []
  | n + 1, df =>
    df.map (fun p => (p.1, p.2.headD Value.vNull)) ::
      rowsOfAux n (df.map (fun p => (p.1, p.2.tail)))

/-- The records of a record set, each a list of (field, cell) pairs in
column order. -/
def rowsOf (df : DataFrame) : List (List (String × Value)) :=
  rowsOfAux (nRows df) df

/-- The cell of a record at a named field. -/
def rowLookup (c : String) : List (String × Value) → Option Value
  | [] => none
  | p :: rest => if p.1 = c then some p.2 else rowLookup c rest

/-- The number of selected entries of a mask. -/
def trueCount (m : List Bool) : Nat := (m.filter id).length

theorem maskFilter_length {α : Type} (m : List Bool) (xs : List α)
    (h : xs.length = m.length) :
    (maskFilter m xs).length = trueCount m := by
  induction m generalizing xs with
  | nil => cases xs <;> simp_all [maskFilter, trueCount]
  | cons b bm ih =>
    cases xs with
    | nil => simp at h
    | cons x rest =>
      cases b <;>
        simp_all [maskFilter, trueCount, List.filter]

theorem maskFilter_id {α : Type} (xs : List α) :
    maskFilter (List.replicate xs.length true) xs = xs := by
  induction xs with
  | nil => rfl
  | cons x rest ih => simpa [List.replicate, maskFilter] using ih

theorem rowLookup_map (df : DataFrame) (c : String)
    (g : List Value → Value) :
    rowLookup c (df.map (fun p => (p.1, g p.2))) =
      (getCol c df).map g := by
  induction df with
  | nil => simp [rowLookup, getCol]
  | cons p rest ih =>
    by_cases hpc : p.1 = c
    · simp [rowLookup, getCol, hpc]
    · simpa [rowLookup, getCol, hpc] using ih

/-- Transposing commutes with row masking: masking every column by `m`
and then listing rows is listing rows and then selecting by `m`. -/
theorem rowsOfAux_mask (m : List Bool) :
    ∀ df : DataFrame, df ≠ [] → Uniform df m.length →
      rowsOfAux (trueCount m)
          (df.map (fun p => (p.1, maskFilter m p.2))) =
        maskFilter m (rowsOfAux m.length df) := by
  induction m with
  | nil =>
    intro df _ _
    simp [trueCount, rowsOfAux, maskFilter]
  | cons b bm ih =>
    intro df hne hu
    have hnonnil : ∀ p ∈ df, p.2 ≠ [] := by
      intro p hp hnil
      have := hu p hp
      rw [hnil] at this
      simp at this
    have htail : Uniform (df.map (fun p => (p.1, p.2.tail))) bm.length := by
      intro p hp
      rcases List.mem_map.mp hp with ⟨q, hq, hqe⟩
      have hl := hu q hq
      subst hqe
      simp only [List.length_tail, hl, List.length_cons,
        Nat.add_sub_cancel]
    have htne : df.map (fun p => (p.1, p.2.tail)) ≠ [] := by
      intro hnil
      exact hne (List.map_eq_nil_iff.mp hnil)
    have hrows : rowsOfAux (bm.length + 1) df =
        df.map (fun p => (p.1, p.2.headD Value.vNull)) ::
          rowsOfAux bm.length (df.map (fun p => (p.1, p.2.tail))) := rfl
    cases b with
    | true =>
      have hmap1 : df.map (fun p => (p.1, maskFilter (true :: bm) p.2)) =
          df.map (fun p =>
            (p.1, p.2.headD Value.vNull :: maskFilter bm p.2.tail)) := by
        refine List.map_congr_left ?_
        intro p hp
        rcases List.exists_cons_of_ne_nil (hnonnil p hp) with ⟨x, t, hxt⟩
        simp [hxt, maskFilter]
      have hcount : trueCount (true :: bm) = trueCount bm + 1 := by
        simp [trueCount, List.filter]
      rw [hmap1, hcount]
      have hhead : (df.map (fun p => (p.1,
          p.2.headD Value.vNull :: maskFilter bm p.2.tail))).map
            (fun p => (p.1, p.2.headD Value.vNull)) =
          df.map (fun p => (p.1, p.2.headD Value.vNull)) := by
        rw [List.map_map]
        rfl
      have htails : (df.map (fun p => (p.1,
          p.2.headD Value.vNull :: maskFilter bm p.2.tail))).map
            (fun p => (p.1, p.2.tail)) =
          (df.map (fun p => (p.1, p.2.tail))).map
            (fun p => (p.1, maskFilter bm p.2)) := by
        rw [List.map_map, List.map_map]
        rfl
      rw [show ∀ X : DataFrame, rowsOfAux (trueCount bm + 1) X =
          X.map (fun p => (p.1, p.2.headD Value.vNull)) ::
            rowsOfAux (trueCount bm) (X.map (fun p => (p.1, p.2.tail)))
        from fun X => rfl]
      rw [hhead, htails, ih _ htne htail]
      rw [show (true :: bm).length = bm.length + 1 from rfl, hrows]
      simp [maskFilter]
    | false =>
      have hmap1 : df.map (fun p => (p.1, maskFilter (false :: bm) p.2)) =
          df.map (fun p => (p.1, maskFilter bm p.2.tail)) := by
        refine List.map_congr_left ?_
        intro p hp
        rcases List.exists_cons_of_ne_nil (hnonnil p hp) with ⟨x, t, hxt⟩
        simp [hxt, maskFilter]
      have hcount : trueCount (false :: bm) = trueCount bm := by
        simp [trueCount, List.filter]
      rw [hmap1, hcount]
      have hsame : df.map (fun p => (p.1, maskFilter bm p.2.tail)) =
          (df.map (fun p => (p.1, p.2.tail))).map
            (fun p => (p.1, maskFilter bm p.2)) := by
        rw [List.map_map]
        rfl
      rw [hsame, ih _ htne htail]
      rw [show (false :: bm).length = bm.length + 1 from rfl, hrows]
      simp [maskFilter]

/-- Every row of the first `n` rows holds, at field `hc`, the
corresponding cell of the `hc` column. -/
theorem rowsOfAux_lookup (hc : String) :
    ∀ (cells : List Value) (df : DataFrame),
      getCol hc df = some cells →
      List.Forall₂ (fun r v => rowLookup hc r = some v)
        (rowsOfAux cells.length df) cells := by
  intro cells
  induction cells with
  | nil => intro df _; exact List.Forall₂.nil
  | cons v vs ih =>
    intro df hcol
    refine List.Forall₂.cons ?_ ?_
    · rw [rowLookup_map df hc (fun l => l.headD Value.vNull), hcol]
      rfl
    · refine ih _ ?_
      rw [getCol_map_val df hc List.tail, hcol]
      rfl

/-- Selecting rows by the mask `cells.map pred` is filtering rows by
`pred` of their `hc` cell. -/
theorem maskFilter_filter (hc : String) (pred : Value → Bool) :
    ∀ (rows : List (List (String × Value))) (cells : List Value),
      List.Forall₂ (fun r v => rowLookup hc r = some v) rows cells →
      maskFilter (cells.map pred) rows =
        rows.filter (fun r =>
          match rowLookup hc r with
          | some v => pred v
          | none => false) := by
  intro rows cells h
  induction h with
  | nil => rfl
  | cons hrv _ ih =>
    rename_i r v rows' cells' _
    rw [List.map_cons]
    cases hp : pred v with
    | true =>
      rw [show maskFilter (true :: cells'.map pred) (r :: rows') =
          r :: maskFilter (cells'.map pred) rows' from rfl, ih]
      rw [List.filter_cons]
      simp [hrv, hp]
    | false =>
      rw [show maskFilter (false :: cells'.map pred) (r :: rows') =
          maskFilter (cells'.map pred) rows' from rfl, ih]
      rw [List.filter_cons]
      simp [hrv, hp]

/-! ## Claim C1 -/

/-- Claim C1, counterexample.  The claim says a hash search on a field
without a `<field>_hash` column fails with `IndexUnavailableError`
rather than returning an empty result; the code never raises (no such
error exists in it) and returns an empty record set. -/
theorem search_missing_index_cex :
    search_by_hash [("F", [Value.vStr "x"])] "F" "q" = ([] : DataFrame) := by
  decide

/-- Claim C1, amended: if the record set has no column named
`<field_name>_hash` the hash search returns an *empty record set* (it
does not fail — `IndexUnavailableError` exists only in the design
document); if the column exists, it returns exactly the records whose
`<field_name>_hash` cell equals `index_hash(query_plaintext)`. -/
theorem search_characterization (df : DataFrame) (f q : String) (n : Nat)
    (hu : Uniform df n) :
    ((colNames df).contains (f ++ "_hash") = false →
      search_by_hash df f q = []) ∧
    ((colNames df).contains (f ++ "_hash") = true →
      rowsOf (search_by_hash df f q) =
        (rowsOf df).filter (fun r =>
          match rowLookup (f ++ "_hash") r with
          | some v => valueEqStr v (hash_for_indexing q)
          | none => false)) := by
  constructor
  · intro h
    unfold search_by_hash
    simp only [h]
    rfl
  · intro h
    have hsome := (contains_iff_getCol df (f ++ "_hash")).mp h
    rcases Option.isSome_iff_exists.mp hsome with ⟨cells, hcells⟩
    have hmemc := getCol_mem df _ cells hcells
    have hlen : cells.length = n := hu _ hmemc
    have hne : df ≠ [] := by
      intro he
      subst he
      simp [getCol] at hcells
    have hmask_len :
        (cells.map (fun v => valueEqStr v (hash_for_indexing q))).length =
          n := by
      simp [hlen]
    have hu' : Uniform df
        (cells.map (fun v => valueEqStr v (hash_for_indexing q))).length := by
      rw [hmask_len]
      exact hu
    have hnr : nRows df = n := by
      cases df with
      | nil => exact absurd rfl hne
      | cons p0 rest => exact hu p0 (List.mem_cons_self p0 rest)
    have hnrows : nRows (df.map (fun p => (p.1,
        maskFilter (cells.map (fun v => valueEqStr v (hash_for_indexing q)))
          p.2))) =
        trueCount (cells.map (fun v => valueEqStr v (hash_for_indexing q))) := by
      cases df with
      | nil => exact absurd rfl hne
      | cons p0 rest =>
        have h0 : p0.2.length =
            (cells.map (fun v => valueEqStr v (hash_for_indexing q))).length := by
          rw [hmask_len]
          exact hu p0 (List.mem_cons_self p0 rest)
        exact maskFilter_length _ p0.2 h0
    unfold search_by_hash
    simp only [h, if_true, hcells, Option.getD_some]
    unfold rowsOf
    rw [hnrows,
        rowsOfAux_mask _ df hne hu',
        hnr, ← hmask_len]
    exact maskFilter_filter (f ++ "_hash") _ _ cells
      (by rw [hmask_len, ← hlen]; exact rowsOfAux_lookup _ cells df hcells)

/-- Claim C1, witness of `search_characterization`: a record set with
a hash column where exactly one of two records matches the query hash,
and a record set without the hash column yielding the empty set. -/
theorem search_characterization_witness :
    Uniform [("F", [Value.vStr "r1", Value.vStr "r2"]),
             ("F_hash", [Value.vStr (hash_for_indexing "q"), Value.vStr "zz"])]
      2 ∧
    (colNames [("F", [Value.vStr "r1", Value.vStr "r2"]),
        ("F_hash",
          [Value.vStr (hash_for_indexing "q"), Value.vStr "zz"])]).contains
      ("F" ++ "_hash") = true ∧
    rowsOf (search_by_hash
        [("F", [Value.vStr "r1", Value.vStr "r2"]),
         ("F_hash", [Value.vStr (hash_for_indexing "q"), Value.vStr "zz"])]
        "F" "q") =
      (rowsOf [("F", [Value.vStr "r1", Value.vStr "r2"]),
        ("F_hash",
          [Value.vStr (hash_for_indexing "q"), Value.vStr "zz"])]).filter
        (fun r =>
          match rowLookup ("F" ++ "_hash") r with
          | some v => valueEqStr v (hash_for_indexing "q")
          | none => false) ∧
    search_by_hash [("G", [Value.vStr "x"])] "G" "q" = [] :=
  ⟨by decide, by decide,
   (search_characterization
      [("F", [Value.vStr "r1", Value.vStr "r2"]),
       ("F_hash", [Value.vStr (hash_for_indexing "q"), Value.vStr "zz"])]
      "F" "q" 2 (by decide)).2 (by decide),
   (search_characterization [("G", [Value.vStr "x"])] "G" "q" 1
      (by decide)).1 (by decide)⟩

/-! ## Claim C8 -/

/-- Hex digits as produced by `hexdigest`. -/
def isHexDigitC (c : Char) : Bool :=
  (48 ≤ c.toNat && c.toNat ≤ 57) || (97 ≤ c.toNat && c.toNat ≤ 102)

theorem hexDigit_good : ∀ k, k < 16 → isHexDigitC (hexDigit k) = true := by
  decide

theorem sha256hex_length (msg : List Nat) :
    (sha256hex msg).data.length = 64 := rfl

/-- Claim C8, confirmed: `index_hash` is exactly the first 16
hexadecimal characters of the (64-character) SHA-256 hex digest of the
UTF-8 bytes of the input — a pure function of the plaintext alone, so
deterministic and involving no key material. -/
theorem hash_for_indexing_spec (x : String) :
    hash_for_indexing x = ⟨(sha256hex (strBytes x)).data.take 16⟩ ∧
    (hash_for_indexing x).data.length = 16 ∧
    (hash_for_indexing x).data.IsPrefix (sha256hex (strBytes x)).data ∧
    ∀ c ∈ (hash_for_indexing x).data, isHexDigitC c = true := by
  refine ⟨rfl, ?_, ?_, ?_⟩
  · show ((sha256hex (strBytes x)).data.take 16).length = 16
    rw [List.length_take, sha256hex_length]
    rfl
  · exact List.take_prefix 16 _
  · intro c hc
    have hc' : c ∈ (sha256hex (strBytes x)).data :=
      (List.take_prefix 16 _).subset hc
    have hmem : c ∈ ([sha256 (strBytes x) |>.a, sha256 (strBytes x) |>.b,
        sha256 (strBytes x) |>.c, sha256 (strBytes x) |>.d,
        sha256 (strBytes x) |>.e, sha256 (strBytes x) |>.f,
        sha256 (strBytes x) |>.g,
        sha256 (strBytes x) |>.h].flatMap wordHex) := hc'
    rcases List.mem_flatMap.mp hmem with ⟨w, _, hw⟩
    have h16 : ∀ m : Nat, m % 16 < 16 := fun m => Nat.mod_lt _ (by norm_num)
    simp only [wordHex, List.mem_cons, List.not_mem_nil, or_false] at hw
    rcases hw with h | h | h | h | h | h | h | h <;>
      (subst h; exact hexDigit_good _ (h16 _))

/-- Claim C8, witness of `hash_for_indexing_spec` at `x = "abc"`,
together with the concrete value it evaluates to. -/
theorem hash_for_indexing_spec_witness :
    (hash_for_indexing "abc").data.length = 16 ∧
    hash_for_indexing "abc" = "ba7816bf8f01cfea" :=
  ⟨(hash_for_indexing_spec "abc").2.1, by decide⟩

/-! ## Claim C10 -/

/-- Claim C10, confirmed: the hash search hashes the query string
verbatim while the protect operation stores the index hash of the
*sanitized* plaintext.  Hence, protecting a record whose raw sensitive
value `v` differs from `sanitize v` (here a one-record set on the
sensitive field `Emitente CNPJ`, with `v` tripping no injection
pattern and sanitizing to a non-empty, non-`"0"` value), searching the
protected set for `v` itself returns no record, while searching for
`sanitize v` returns the record — up to truncated-hash collisions,
excluded by the hypothesis that the two index hashes differ. -/
theorem search_raw_vs_sanitized (F : CryptoBackend) (now : String)
    (st : Stats) (v : String)
    (h0 : detectInjection v = false)
    (hne : sanitize v ≠ v)
    (h1 : sanitize v ≠ "") (h2 : sanitize v ≠ "0")
    (hh : hash_for_indexing v ≠ hash_for_indexing (sanitize v)) :
    nRows (search_by_hash
      (encrypt_sensitive_data F now st
        [("Emitente CNPJ", [Value.vStr v])]).1
      "Emitente CNPJ" v) = 0 ∧
    search_by_hash
      (encrypt_sensitive_data F now st
        [("Emitente CNPJ", [Value.vStr v])]).1
      "Emitente CNPJ" (sanitize v) =
      (encrypt_sensitive_data F now st
        [("Emitente CNPJ", [Value.vStr v])]).1 := by
  have hcell : cellOut F (Value.vStr v) =
      Value.vStr ("ENC:" ++ F.b64encode (F.fernet_encrypt (sanitize v))) := by
    simp [cellOut, blockSubst, pyStrOrEmpty, pyStr, h0, h1, h2]
  have hch : cellHash (Value.vStr v) = hash_for_indexing (sanitize v) := by
    simp [cellHash, blockSubst, pyStrOrEmpty, pyStr, h0, h1, h2]
  have hedf : (encrypt_sensitive_data F now st
      [("Emitente CNPJ", [Value.vStr v])]).1 =
      [("Emitente CNPJ",
        [Value.vStr ("ENC:" ++ F.b64encode (F.fernet_encrypt (sanitize v)))]),
       ("Emitente CNPJ_hash",
        [Value.vStr (hash_for_indexing (sanitize v))]),
       ("_encrypted_timestamp", [Value.vStr now]),
       ("_encryption_version", [Value.vStr "2.0_selective"]),
       ("_public_fields_count", [Value.vInt 0]),
       ("_encrypted_fields_count", [Value.vInt 1])] := by
    unfold encrypt_sensitive_data
    simp only []
    rw [show sensitiveColumnsOf
          (colNames [("Emitente CNPJ", [Value.vStr v])]) =
        ["Emitente CNPJ"] from rfl,
        show publicColumnsOf (colNames [("Emitente CNPJ", [Value.vStr v])]) =
        [] from rfl,
        List.foldl_cons, List.foldl_nil]
    unfold encStep
    rw [processColumn_eq]
    rw [show getCol "Emitente CNPJ" [("Emitente CNPJ", [Value.vStr v])] =
        some [Value.vStr v] from rfl]
    simp only [Option.getD_some, List.map_cons, List.map_nil, hcell, hch]
    simp [setCol, colNames, nRows]
  rw [hedf]
  have hfalse :
      (hash_for_indexing (sanitize v) == hash_for_indexing v) = false :=
    beq_eq_false_iff_ne.mpr (Ne.symm hh)
  constructor
  · unfold search_by_hash
    simp only [show (colNames
        [("Emitente CNPJ",
          [Value.vStr ("ENC:" ++ F.b64encode (F.fernet_encrypt (sanitize v)))]),
         ("Emitente CNPJ_hash",
          [Value.vStr (hash_for_indexing (sanitize v))]),
         ("_encrypted_timestamp", [Value.vStr now]),
         ("_encryption_version", [Value.vStr "2.0_selective"]),
         ("_public_fields_count", [Value.vInt 0]),
         ("_encrypted_fields_count", [Value.vInt 1])]).contains
        ("Emitente CNPJ" ++ "_hash") = true from rfl, if_true]
    rw [show getCol ("Emitente CNPJ" ++ "_hash")
        [("Emitente CNPJ",
          [Value.vStr ("ENC:" ++ F.b64encode (F.fernet_encrypt (sanitize v)))]),
         ("Emitente CNPJ_hash",
          [Value.vStr (hash_for_indexing (sanitize v))]),
         ("_encrypted_timestamp", [Value.vStr now]),
         ("_encryption_version", [Value.vStr "2.0_selective"]),
         ("_public_fields_count", [Value.vInt 0]),
         ("_encrypted_fields_count", [Value.vInt 1])] =
        some [Value.vStr (hash_for_indexing (sanitize v))] from rfl]
    simp only [Option.getD_some, List.map_cons, List.map_nil, valueEqStr,
      hfalse]
    simp [maskFilter, nRows]
  · unfold search_by_hash
    simp only [show (colNames
        [("Emitente CNPJ",
          [Value.vStr ("ENC:" ++ F.b64encode (F.fernet_encrypt (sanitize v)))]),
         ("Emitente CNPJ_hash",
          [Value.vStr (hash_for_indexing (sanitize v))]),
         ("_encrypted_timestamp", [Value.vStr now]),
         ("_encryption_version", [Value.vStr "2.0_selective"]),
         ("_public_fields_count", [Value.vInt 0]),
         ("_encrypted_fields_count", [Value.vInt 1])]).contains
        ("Emitente CNPJ" ++ "_hash") = true from rfl, if_true]
    rw [show getCol ("Emitente CNPJ" ++ "_hash")
        [("Emitente CNPJ",
          [Value.vStr ("ENC:" ++ F.b64encode (F.fernet_encrypt (sanitize v)))]),
         ("Emitente CNPJ_hash",
          [Value.vStr (hash_for_indexing (sanitize v))]),
         ("_encrypted_timestamp", [Value.vStr now]),
         ("_encryption_version", [Value.vStr "2.0_selective"]),
         ("_public_fields_count", [Value.vInt 0]),
         ("_encrypted_fields_count", [Value.vInt 1])] =
        some [Value.vStr (hash_for_indexing (sanitize v))] from rfl]
    simp only [Option.getD_some, List.map_cons, List.map_nil, valueEqStr,
      beq_self_eq_true]
    simp [maskFilter]

/-- Claim C10, witness of `search_raw_vs_sanitized` at the raw value
`" 12.345.678/0001-90 "`, whose sanitized form strips the surrounding
spaces and therefore hashes differently. -/
theorem search_raw_vs_sanitized_witness :
    detectInjection " 12.345.678/0001-90 " = false ∧
    sanitize " 12.345.678/0001-90 " ≠ " 12.345.678/0001-90 " ∧
    hash_for_indexing " 12.345.678/0001-90 " ≠
      hash_for_indexing (sanitize " 12.345.678/0001-90 ") ∧
    nRows (search_by_hash
      (encrypt_sensitive_data trivialBackend "now" (initStats "t")
        [("Emitente CNPJ", [Value.vStr " 12.345.678/0001-90 "])]).1
      "Emitente CNPJ" " 12.345.678/0001-90 ") = 0 ∧
    search_by_hash
      (encrypt_sensitive_data trivialBackend "now" (initStats "t")
        [("Emitente CNPJ", [Value.vStr " 12.345.678/0001-90 "])]).1
      "Emitente CNPJ" (sanitize " 12.345.678/0001-90 ") =
      (encrypt_sensitive_data trivialBackend "now" (initStats "t")
        [("Emitente CNPJ", [Value.vStr " 12.345.678/0001-90 "])]).1 :=
  ⟨by decide, by decide, by decide,
   (search_raw_vs_sanitized trivialBackend "now" (initStats "t")
      " 12.345.678/0001-90 " (by decide) (by decide) (by decide)
      (by decide) (by decide)).1,
   (search_raw_vs_sanitized trivialBackend "now" (initStats "t")
      " 12.345.678/0001-90 " (by decide) (by decide) (by decide)
      (by decide) (by decide)).2⟩

end SecureData
